import Mathlib

/-!
# Verification of the TD-control notebooks (SARSA / SARSAMAX / Expected SARSA)

Shallow embedding of the core of the `td-methods` repository: the
action-value table (a Python `defaultdict(lambda: np.zeros(nA))`), the
epsilon-greedy selector, the three TD update rules, the SARSAMAX episode
runner and the training loop.  Numeric values are modelled as rationals;
states are natural numbers, and table keys are `Option Nat` because the
source indexes the defaultdict with `next_state`, which may be Python's
`None`.  Randomness is passed explicitly (a draw in `[0,1)` and a uniform
integer), and the module-level Python frame that the update rules read
their free variable `reward` from is modelled by the `Globals` structure.
-/

/-- The module-level (global) Python frame.  The three `update_sarsa_Q`
variants read the name `reward` from this enclosing scope; the other
fields model further module-level names assigned by the notebooks'
top-level cells (`score`, `state`, `done` from the random-player cell,
`eps` from the hyperparameter cell). -/
structure Globals where
  reward : ℚ
  score : ℚ
  state : Nat
  done : Bool
  eps : ℚ
  deriving DecidableEq, Repr

/-- The action-value table: Python `defaultdict(lambda: np.zeros(nA))`,
as an insertion-ordered association list.  A key is `some s` for an
environment state `s` and `none` for Python's `None`. -/
abbrev QTable := List (Option Nat × List ℚ)

/-- `np.zeros(nA)`. -/
def zeros (nA : Nat) : List ℚ := List.replicate nA 0

/-- Raw dictionary lookup (first matching key; no default insertion). -/
def qlookup : QTable → Option Nat → Option (List ℚ)
  | [], _ => none
  | (k, v) :: rest, key => if k = key then some v else qlookup rest key

/-- A defaultdict read `Q[k]`: returns the stored vector and the table
after the access — on a missing key the zero vector is appended
(Python's `defaultdict.__missing__`). -/
def qaccess (Q : QTable) (nA : Nat) (k : Option Nat) : List ℚ × QTable :=
  match qlookup Q k with
  | some v => (v, Q)
  | none => (zeros nA, Q ++ [(k, zeros nA)])

/-- The value-view of the table: the vector a read of key `k` yields,
missing keys behaving as zero vectors. -/
def qvec (Q : QTable) (nA : Nat) (k : Option Nat) : List ℚ :=
  (qlookup Q k).getD (zeros nA)

/-- The scalar value-view `Q[k][a]` (0 beyond the vector's length). -/
def qval (Q : QTable) (nA : Nat) (k : Option Nat) (a : Nat) : ℚ :=
  (qvec Q nA k).getD a 0

/-- Replace the vector stored at the first occurrence of key `k`. -/
def qsetKey : QTable → Option Nat → List ℚ → QTable
  | [], _, _ => []
  | (k', v') :: rest, k, v =>
    if k' = k then (k, v) :: rest else (k', v') :: qsetKey rest k v

/-- The Python statement `Q[k][a] = v` on the defaultdict: the read
`Q[k]` first materializes the entry, then index `a` of the stored
vector is overwritten. -/
def qset (Q : QTable) (nA : Nat) (k : Option Nat) (a : Nat) (v : ℚ) : QTable :=
  let p := qaccess Q nA k
  qsetKey p.2 k (p.1.set a v)

/-- Every stored vector has length `nA` (the defaultdict only ever holds
`np.zeros(nA)` arrays, mutated in place). -/
def WF (Q : QTable) (nA : Nat) : Prop := ∀ e ∈ Q, (e.2).length = nA

instance (Q : QTable) (nA : Nat) : Decidable (WF Q nA) :=
  inferInstanceAs (Decidable (∀ e ∈ Q, (e.2).length = nA))

/-- `np.argmax`: index of the first occurrence of the maximum
(`0` for the empty array, which `np.argmax` rejects). -/
def argmax : List ℚ → Nat
  | [] => 0
  | [_] => 0
  | x :: y :: rest =>
    let j := argmax (y :: rest)
    if x < (y :: rest).getD j 0 then j + 1 else 0

/-- `np.dot` of two equal-length vectors. -/
def dot : List ℚ → List ℚ → ℚ
  | [], _ => 0
  | _ :: _, [] => 0
  | x :: xs, y :: ys => x * y + dot xs ys

/-- `eps_greedy(eps, Q, state, nA)` with the consumed randomness made
explicit: `rand` is the `np.random.rand()` draw and `randint` the
`np.random.randint(nA)` draw.  Returns the chosen action and the table
after the call (the greedy branch reads `Q[state]` on the defaultdict). -/
def eps_greedy (eps : ℚ) (Q : QTable) (state : Nat) (nA : Nat)
    (rand : ℚ) (randint : Nat) : Nat × QTable :=
  if rand < eps then (randint, Q)
  else
    let p := qaccess Q nA (some state)
    (argmax p.1, p.2)

/-- SARSA `update_sarsa_Q(alpha, gamma, Q, state, action, next_state,
next_action)` from `1.sarsa.ipynb`.  `reward` is the free variable read
from the global frame `g`.  The conditional expression
`Q[next_state][next_action] if next_state is not None else 0` only
touches the table when `next_state` is not `None`.  Returns the value
and the table after the call's defaultdict accesses. -/
def sarsaUpdate (g : Globals) (alpha gamma : ℚ) (Q : QTable) (nA : Nat)
    (state action : Nat) (next_state next_action : Option Nat) : ℚ × QTable :=
  let qsa : ℚ × QTable :=
    match next_state with
    | some n =>
      let p := qaccess Q nA (some n)
      (p.1.getD (next_action.getD 0) 0, p.2)
    | none => (0, Q)
  let q := qaccess qsa.2 nA (some state)
  let cur := q.1.getD action 0
  (cur + alpha * (g.reward + gamma * qsa.1 - cur), q.2)

/-- SARSAMAX `update_sarsa_Q(alpha, gamma, Q, state, action, next_state)`
from the part-2 notebook.  The first line,
`next_action = np.argmax(Q[next_state])`, reads `Q[next_state]`
unconditionally — also when `next_state` is `None`, which inserts a zero
vector under the key `None`. -/
def sarsamaxUpdate (g : Globals) (alpha gamma : ℚ) (Q : QTable) (nA : Nat)
    (state action : Nat) (next_state : Option Nat) : ℚ × QTable :=
  let p := qaccess Q nA next_state
  let next_action := argmax p.1
  let qsa : ℚ :=
    match next_state with
    | some _ => p.1.getD next_action 0
    | none => 0
  let q := qaccess p.2 nA (some state)
  let cur := q.1.getD action 0
  (cur + alpha * (g.reward + gamma * qsa - cur), q.2)

/-- Expected-SARSA `update_sarsa_Q(eps, nA, alpha, gamma, Q, state,
action, next_state)` from `1.sarsa.ipynb`: builds the epsilon-greedy
probability vector `np.ones(nA) * eps/nA` with the argmax entry set to
`1 - eps + eps/nA`, and bootstraps with `np.dot(Q[next_state], policy)`. -/
def expectedSarsaUpdate (g : Globals) (eps : ℚ) (nA : Nat) (alpha gamma : ℚ)
    (Q : QTable) (state action : Nat) (next_state : Option Nat) : ℚ × QTable :=
  let qsa : ℚ × QTable :=
    match next_state with
    | some n =>
      let p := qaccess Q nA (some n)
      let policy := (List.replicate nA (eps / (nA : ℚ))).set (argmax p.1)
        (1 - eps + eps / (nA : ℚ))
      (dot p.1 policy, p.2)
    | none => (0, Q)
  let q := qaccess qsa.2 nA (some state)
  let cur := q.1.getD action 0
  (cur + alpha * (g.reward + gamma * qsa.1 - cur), q.2)

/-- The assignment `Q[state][action] = update_sarsa_Q(...)` for SARSA. -/
def sarsaStep (g : Globals) (alpha gamma : ℚ) (Q : QTable) (nA : Nat)
    (state action : Nat) (next_state next_action : Option Nat) : QTable :=
  let u := sarsaUpdate g alpha gamma Q nA state action next_state next_action
  qset u.2 nA (some state) action u.1

/-- The assignment `Q[state][action] = update_sarsa_Q(...)` for SARSAMAX. -/
def sarsamaxStep (g : Globals) (alpha gamma : ℚ) (Q : QTable) (nA : Nat)
    (state action : Nat) (next_state : Option Nat) : QTable :=
  let u := sarsamaxUpdate g alpha gamma Q nA state action next_state
  qset u.2 nA (some state) action u.1

/-- The assignment `Q[state][action] = update_sarsa_Q(...)` for
Expected SARSA. -/
def expectedSarsaStep (g : Globals) (eps : ℚ) (nA : Nat) (alpha gamma : ℚ)
    (Q : QTable) (state action : Nat) (next_state : Option Nat) : QTable :=
  let u := expectedSarsaUpdate g eps nA alpha gamma Q state action next_state
  qset u.2 nA (some state) action u.1

/-- The SARSA bootstrap target (`Qsa` in the source), as a function of
the value-view of the table. -/
def sarsaTarget (Q : QTable) (nA : Nat) (next_state next_action : Option Nat) : ℚ :=
  match next_state with
  | some n => qval Q nA (some n) (next_action.getD 0)
  | none => 0

/-- The SARSAMAX bootstrap target (`Qsa` in the source):
`Q[next_state][np.argmax(Q[next_state])]`. -/
def sarsamaxTarget (Q : QTable) (nA : Nat) (next_state : Option Nat) : ℚ :=
  match next_state with
  | some n => (qvec Q nA (some n)).getD (argmax (qvec Q nA (some n))) 0
  | none => 0

/-- The Expected-SARSA probability vector over actions for a given
value vector. -/
def expPolicy (eps : ℚ) (nA : Nat) (vec : List ℚ) : List ℚ :=
  (List.replicate nA (eps / (nA : ℚ))).set (argmax vec) (1 - eps + eps / (nA : ℚ))

/-- The Expected-SARSA bootstrap target (`Qsa` in the source). -/
def expectedTarget (eps : ℚ) (Q : QTable) (nA : Nat) (next_state : Option Nat) : ℚ :=
  match next_state with
  | some n => dot (qvec Q nA (some n)) (expPolicy eps nA (qvec Q nA (some n)))
  | none => 0

/-- The spec's common target signature
`target(table, next_state_or_none, epsilon, nA, chosen_next_action_or_none)`,
instantiated by the SARSA source. -/
def targetSARSA (Q : QTable) (ns : Option Nat) (eps : ℚ) (nA : Nat)
    (na : Option Nat) : ℚ :=
  sarsaTarget Q nA ns na

/-- The spec's common target signature, instantiated by the SARSAMAX
source (the source function takes neither `epsilon` nor a chosen next
action). -/
def targetSARSAMAX (Q : QTable) (ns : Option Nat) (eps : ℚ) (nA : Nat)
    (na : Option Nat) : ℚ :=
  sarsamaxTarget Q nA ns

/-- The spec's common target signature, instantiated by the
Expected-SARSA source. -/
def targetEXPECTED (Q : QTable) (ns : Option Nat) (eps : ℚ) (nA : Nat)
    (na : Option Nat) : ℚ :=
  expectedTarget eps Q nA ns

/-- The SARSA bootstrap as produced inside the episode runner of
`1.sarsa.ipynb`: the next action is first sampled by
`eps_greedy(eps, Q, next_state, nA)` and the target then reads
`Q[next_state][next_action]` — this is how the exploration rate reaches
the SARSA target. -/
def sarsaNextBootstrap (eps : ℚ) (Q : QTable) (next_state : Nat) (nA : Nat)
    (rand : ℚ) (randint : Nat) : ℚ :=
  let p := eps_greedy eps Q next_state nA rand randint
  sarsaTarget p.2 nA (some next_state) (some p.1)

/-- One iteration body of `generate_sarsa_episode` for SARSAMAX, plus the
surrounding `while True` loop, with fuel.  `step` is the external
environment's `env.step` (deterministic collaborator:
state, action ↦ next_state, reward, done); `rnd` is the stream of
randomness pairs consumed by `eps_greedy`; `g` is the global frame whose
`reward` field the update rule reads.  Returns `none` when the fuel runs
out before the environment reports `done`, and otherwise the final table
and the episode score. -/
def sarsamaxEpisode (step : Nat → Nat → Nat × ℚ × Bool) (rnd : Nat → ℚ × Nat)
    (g : Globals) (nA : Nat) (eps alpha gamma : ℚ) :
    Nat → QTable → Nat → ℚ → Nat → Option (QTable × ℚ)
  | 0, _, _, _, _ => none
  | fuel + 1, Q, state, score, k =>
    let r := rnd k
    let a := eps_greedy eps Q state nA r.1 r.2
    let s := step state a.1
    let score1 := score + s.2.1
    if s.2.2 then
      some (sarsamaxStep g alpha gamma a.2 nA state a.1 none, score1)
    else
      sarsamaxEpisode step rnd g nA eps alpha gamma fuel
        (sarsamaxStep g alpha gamma a.2 nA state a.1 (some s.1)) s.1 score1 (k + 1)

/-- The state threaded through the `train` loop: the current epsilon,
the table, and `all_rewards`.  (Progress printing and the bounded
`tmp_rewards`/`avg_rewards` reporting deques are incidental glue, out of
the claims' scope, and are omitted.) -/
structure TrainState where
  eps : ℚ
  Q : QTable
  allRewards : List ℚ
  deriving DecidableEq, Repr

/-- `eps = max(eps * eps_decay, eps_min)` — the line the training loop
executes before each episode. -/
def decayStep (eps_decay eps_min e : ℚ) : ℚ := max (e * eps_decay) eps_min

/-- One iteration of the `for i in range(1, num_episodes + 1)` body of
`train`: decay epsilon, run one episode with the decayed value, append
the score.  `runEp` abstracts `generate_sarsa_episode(env, Q, eps,
alpha, gamma)`. -/
def trainStep (runEp : QTable → ℚ → ℚ → ℚ → QTable × ℚ)
    (eps_decay eps_min alpha gamma : ℚ) (st : TrainState) : TrainState :=
  let e := decayStep eps_decay eps_min st.eps
  let p := runEp st.Q e alpha gamma
  ⟨e, p.1, st.allRewards ++ [p.2]⟩

theorem getD_zeros (nA i : Nat) : (zeros nA).getD i 0 = 0 := by
  induction nA generalizing i with
  | zero => simp [zeros, List.getD]
  | succ n ih =>
    cases i with
    | zero => simp [zeros, List.replicate]
    | succ j => simpa [zeros, List.replicate] using ih j

theorem getD_set_self (l : List ℚ) (a : Nat) (v : ℚ) (h : a < l.length) :
    (l.set a v).getD a 0 = v := by
  induction l generalizing a with
  | nil => simp at h
  | cons x xs ih =>
    cases a with
    | zero => simp
    | succ b => simpa using ih b (by simpa using h)

theorem getD_set_ne (l : List ℚ) (a b : Nat) (v : ℚ) (h : b ≠ a) :
    (l.set a v).getD b 0 = l.getD b 0 := by
  induction l generalizing a b with
  | nil => simp
  | cons x xs ih =>
    cases a with
    | zero =>
      cases b with
      | zero => exact absurd rfl h
      | succ c => simp
    | succ a' =>
      cases b with
      | zero => simp
      | succ c => simpa using ih a' c (by simpa using h)

theorem sum_set_replicate (n i : Nat) (x y : ℚ) (h : i < n) :
    ((List.replicate n x).set i y).sum = n * x - x + y := by
  induction n generalizing i with
  | zero => simp at h
  | succ m ih =>
    cases i with
    | zero =>
      simp [List.replicate, List.sum_replicate, Nat.cast_succ]
      ring
    | succ j =>
      have := ih j (by omega)
      simp only [List.replicate, List.set, List.sum_cons, this, Nat.cast_succ]
      ring

theorem qaccess_fst (Q : QTable) (nA : Nat) (k : Option Nat) :
    (qaccess Q nA k).1 = qvec Q nA k := by
  unfold qaccess qvec
  cases qlookup Q k <;> simp

theorem qlookup_append_single (Q : QTable) (k k' : Option Nat) (v : List ℚ) :
    qlookup (Q ++ [(k, v)]) k' =
      match qlookup Q k' with
      | some w => some w
      | none => if k = k' then some v else none := by
  induction Q with
  | nil => simp [qlookup]
  | cons e rest ih =>
    by_cases he : e.1 = k'
    · simp [qlookup, he]
    · simpa [qlookup, he] using ih

theorem qlookup_qaccess_ne (Q : QTable) (nA : Nat) (k k' : Option Nat)
    (h : k ≠ k') : qlookup (qaccess Q nA k).2 k' = qlookup Q k' := by
  unfold qaccess
  cases hq : qlookup Q k with
  | some v => simp
  | none =>
    simp only [qlookup_append_single]
    cases hq' : qlookup Q k' with
    | some w => simp
    | none => simp [h]

theorem qlookup_qaccess_mono (Q : QTable) (nA : Nat) (k k' : Option Nat)
    (v : List ℚ) (h : qlookup Q k' = some v) :
    qlookup (qaccess Q nA k).2 k' = some v := by
  unfold qaccess
  cases hq : qlookup Q k with
  | some w => simpa using h
  | none => simp [qlookup_append_single, h]

theorem qlookup_qaccess_self (Q : QTable) (nA : Nat) (k : Option Nat) :
    qlookup (qaccess Q nA k).2 k = some (qvec Q nA k) := by
  unfold qaccess qvec
  cases hq : qlookup Q k with
  | some v => simpa using hq
  | none => simp [qlookup_append_single, hq]

theorem qvec_qaccess (Q : QTable) (nA : Nat) (k k' : Option Nat) :
    qvec (qaccess Q nA k).2 nA k' = qvec Q nA k' := by
  by_cases h : k = k'
  · subst h
    unfold qvec
    rw [qlookup_qaccess_self]
    rfl
  · unfold qvec
    rw [qlookup_qaccess_ne Q nA k k' h]

theorem qlookup_mem (Q : QTable) (k : Option Nat) (v : List ℚ)
    (h : qlookup Q k = some v) : (k, v) ∈ Q := by
  induction Q with
  | nil => simp [qlookup] at h
  | cons e rest ih =>
    obtain ⟨k1, v1⟩ := e
    by_cases he : k1 = k
    · have h' : v1 = v := by simpa [qlookup, he] using h
      subst h'
      rw [he]
      exact List.mem_cons_self _ _
    · exact List.mem_cons_of_mem _ (ih (by simpa [qlookup, he] using h))

theorem qlookup_qsetKey_ne (Q : QTable) (k k' : Option Nat) (v : List ℚ)
    (h : k' ≠ k) : qlookup (qsetKey Q k v) k' = qlookup Q k' := by
  induction Q with
  | nil => simp [qsetKey]
  | cons e rest ih =>
    obtain ⟨k1, v1⟩ := e
    by_cases he : k1 = k
    · have h1 : ¬(k1 = k') := by rw [he]; exact fun hh => h hh.symm
      have h2 : ¬(k = k') := fun hh => h hh.symm
      simp [qsetKey, qlookup, he, h1, h2]
    · by_cases he' : k1 = k'
      · simp [qsetKey, qlookup, he, he', h]
      · simp [qsetKey, qlookup, he, he', ih]

theorem qlookup_qsetKey_self (Q : QTable) (k : Option Nat) (v w : List ℚ)
    (h : qlookup Q k = some w) : qlookup (qsetKey Q k v) k = some v := by
  induction Q with
  | nil => simp [qlookup] at h
  | cons e rest ih =>
    obtain ⟨k1, v1⟩ := e
    by_cases he : k1 = k
    · subst he
      simp [qsetKey, qlookup]
    · have h' : qlookup rest k = some w := by simpa [qlookup, he] using h
      simp [qsetKey, qlookup, he, ih h']

theorem qlookup_qset_ne (Q : QTable) (nA : Nat) (k k' : Option Nat)
    (a : Nat) (v : ℚ) (h : k' ≠ k) :
    qlookup (qset Q nA k a v) k' = qlookup Q k' := by
  unfold qset
  rw [qlookup_qsetKey_ne _ _ _ _ h, qlookup_qaccess_ne Q nA k k' (Ne.symm h)]

theorem qlookup_qset_self (Q : QTable) (nA : Nat) (k : Option Nat)
    (a : Nat) (v : ℚ) :
    qlookup (qset Q nA k a v) k = some ((qvec Q nA k).set a v) := by
  show qlookup (qsetKey (qaccess Q nA k).2 k ((qaccess Q nA k).1.set a v)) k = _
  rw [qaccess_fst]
  exact qlookup_qsetKey_self _ _ _ _ (qlookup_qaccess_self Q nA k)

theorem qvec_qset_ne (Q : QTable) (nA : Nat) (k k' : Option Nat)
    (a : Nat) (v : ℚ) (h : k' ≠ k) :
    qvec (qset Q nA k a v) nA k' = qvec Q nA k' := by
  unfold qvec
  rw [qlookup_qset_ne _ _ _ _ _ _ h]

theorem qvec_qset_self (Q : QTable) (nA : Nat) (k : Option Nat)
    (a : Nat) (v : ℚ) :
    qvec (qset Q nA k a v) nA k = (qvec Q nA k).set a v := by
  unfold qvec
  rw [qlookup_qset_self]
  rfl

theorem WF_qvec_length (Q : QTable) (nA : Nat) (hWF : WF Q nA)
    (k : Option Nat) : (qvec Q nA k).length = nA := by
  unfold qvec
  cases hq : qlookup Q k with
  | none => simp [zeros]
  | some v => simpa using hWF (k, v) (qlookup_mem Q k v hq)

theorem qval_qset_self (Q : QTable) (nA : Nat) (hWF : WF Q nA)
    (k : Option Nat) (a : Nat) (v : ℚ) (ha : a < nA) :
    qval (qset Q nA k a v) nA k a = v := by
  unfold qval
  rw [qvec_qset_self]
  exact getD_set_self _ _ _ (by rw [WF_qvec_length Q nA hWF]; exact ha)

theorem qval_qset_other (Q : QTable) (nA : Nat) (k k' : Option Nat)
    (a b : Nat) (v : ℚ) (h : ¬(k' = k ∧ b = a)) :
    qval (qset Q nA k a v) nA k' b = qval Q nA k' b := by
  by_cases hk : k' = k
  · subst hk
    have hb : b ≠ a := fun hb => h ⟨rfl, hb⟩
    unfold qval
    rw [qvec_qset_self]
    exact getD_set_ne _ _ _ _ hb
  · unfold qval
    rw [qvec_qset_ne _ _ _ _ _ _ hk]

theorem WF_qaccess (Q : QTable) (nA : Nat) (hWF : WF Q nA) (k : Option Nat) :
    WF (qaccess Q nA k).2 nA := by
  unfold qaccess
  cases hq : qlookup Q k with
  | some v => simpa using hWF
  | none =>
    intro e he
    simp only [List.mem_append, List.mem_singleton] at he
    rcases he with he | he
    · exact hWF e he
    · subst he
      simp [zeros]

theorem WF_qsetKey (Q : QTable) (nA : Nat) (hWF : WF Q nA) (k : Option Nat)
    (v : List ℚ) (hv : v.length = nA) : WF (qsetKey Q k v) nA := by
  induction Q with
  | nil => simpa [qsetKey] using hWF
  | cons e rest ih =>
    by_cases he : e.1 = k
    · intro e' he'
      simp only [qsetKey, he, if_true, List.mem_cons] at he'
      rcases he' with he' | he'
      · subst he'; exact hv
      · exact hWF e' (List.mem_cons_of_mem _ he')
    · intro e' he'
      simp only [qsetKey, he, if_false, List.mem_cons] at he'
      rcases he' with he' | he'
      · subst he'; exact hWF e (List.mem_cons_self _ _)
      · exact ih (fun x hx => hWF x (List.mem_cons_of_mem _ hx)) e' he'

theorem WF_qset (Q : QTable) (nA : Nat) (hWF : WF Q nA) (k : Option Nat)
    (a : Nat) (v : ℚ) : WF (qset Q nA k a v) nA := by
  unfold qset
  apply WF_qsetKey _ _ (WF_qaccess Q nA hWF k)
  rw [qaccess_fst, List.length_set]
  exact WF_qvec_length Q nA hWF k

/-! ## `np.argmax` lemmas: the returned index is in range and attains the
maximum of the array -/

theorem argmax_lt_length : ∀ l : List ℚ, l ≠ [] → argmax l < l.length := by
  intro l hl
  induction l with
  | nil => exact absurd rfl hl
  | cons x xs ih =>
    cases xs with
    | nil => simp [argmax]
    | cons y rest =>
      have h : argmax (y :: rest) < rest.length + 1 := by
        simpa using ih (by simp)
      simp only [argmax, List.length_cons]
      split
      · omega
      · omega

theorem getD_le_argmax : ∀ l : List ℚ, ∀ i, i < l.length →
    l.getD i 0 ≤ l.getD (argmax l) 0 := by
  intro l
  induction l with
  | nil => intro i hi; simp at hi
  | cons x xs ih =>
    intro i hi
    cases xs with
    | nil =>
      cases i with
      | zero => simp [argmax]
      | succ j => simp at hi
    | cons y rest =>
      simp only [argmax]
      split
      case isTrue hc =>
        cases i with
        | zero => simpa using le_of_lt hc
        | succ j => simpa using ih j (by simpa using hi)
      case isFalse hc =>
        cases i with
        | zero => simp
        | succ j =>
          have h2 := le_of_not_lt hc
          simpa using le_trans (ih j (by simpa using hi)) h2

/-! ## Faithfulness of the update functions: the returned scalar is the
TD formula over the table's value-view, and the internal defaultdict
accesses never change that value-view -/

theorem sarsaUpdate_fst (g : Globals) (alpha gamma : ℚ) (Q : QTable) (nA : Nat)
    (s a : Nat) (ns na : Option Nat) :
    (sarsaUpdate g alpha gamma Q nA s a ns na).1 =
      qval Q nA (some s) a +
        alpha * (g.reward + gamma * sarsaTarget Q nA ns na - qval Q nA (some s) a) := by
  cases ns with
  | none =>
    simp only [sarsaUpdate, sarsaTarget, qval]
    rw [qaccess_fst]
  | some n =>
    simp only [sarsaUpdate, sarsaTarget, qval]
    rw [qaccess_fst, qaccess_fst, qvec_qaccess]

theorem sarsaUpdate_snd_qvec (g : Globals) (alpha gamma : ℚ) (Q : QTable)
    (nA : Nat) (s a : Nat) (ns na : Option Nat) (k : Option Nat) :
    qvec (sarsaUpdate g alpha gamma Q nA s a ns na).2 nA k = qvec Q nA k := by
  cases ns with
  | none =>
    simp only [sarsaUpdate]
    rw [qvec_qaccess]
  | some n =>
    simp only [sarsaUpdate]
    rw [qvec_qaccess, qvec_qaccess]

theorem sarsamaxUpdate_fst (g : Globals) (alpha gamma : ℚ) (Q : QTable)
    (nA : Nat) (s a : Nat) (ns : Option Nat) :
    (sarsamaxUpdate g alpha gamma Q nA s a ns).1 =
      qval Q nA (some s) a +
        alpha * (g.reward + gamma * sarsamaxTarget Q nA ns - qval Q nA (some s) a) := by
  cases ns with
  | none =>
    simp only [sarsamaxUpdate, sarsamaxTarget, qval]
    rw [qaccess_fst, qvec_qaccess]
  | some n =>
    simp only [sarsamaxUpdate, sarsamaxTarget, qval]
    rw [qaccess_fst, qaccess_fst, qvec_qaccess]

theorem sarsamaxUpdate_snd_qvec (g : Globals) (alpha gamma : ℚ) (Q : QTable)
    (nA : Nat) (s a : Nat) (ns : Option Nat) (k : Option Nat) :
    qvec (sarsamaxUpdate g alpha gamma Q nA s a ns).2 nA k = qvec Q nA k := by
  simp only [sarsamaxUpdate]
  rw [qvec_qaccess, qvec_qaccess]

theorem expectedSarsaUpdate_fst (g : Globals) (eps : ℚ) (nA : Nat)
    (alpha gamma : ℚ) (Q : QTable) (s a : Nat) (ns : Option Nat) :
    (expectedSarsaUpdate g eps nA alpha gamma Q s a ns).1 =
      qval Q nA (some s) a +
        alpha * (g.reward + gamma * expectedTarget eps Q nA ns - qval Q nA (some s) a) := by
  cases ns with
  | none =>
    simp only [expectedSarsaUpdate, expectedTarget, qval]
    rw [qaccess_fst]
  | some n =>
    simp only [expectedSarsaUpdate, expectedTarget, expPolicy, qval]
    rw [qaccess_fst, qaccess_fst, qvec_qaccess]

theorem expectedSarsaUpdate_snd_qvec (g : Globals) (eps : ℚ) (nA : Nat)
    (alpha gamma : ℚ) (Q : QTable) (s a : Nat) (ns : Option Nat) (k : Option Nat) :
    qvec (expectedSarsaUpdate g eps nA alpha gamma Q s a ns).2 nA k = qvec Q nA k := by
  cases ns with
  | none =>
    simp only [expectedSarsaUpdate]
    rw [qvec_qaccess]
  | some n =>
    simp only [expectedSarsaUpdate]
    rw [qvec_qaccess, qvec_qaccess]

theorem sarsaUpdate_snd_WF (g : Globals) (alpha gamma : ℚ) (Q : QTable)
    (nA : Nat) (s a : Nat) (ns na : Option Nat) (hWF : WF Q nA) :
    WF (sarsaUpdate g alpha gamma Q nA s a ns na).2 nA := by
  cases ns with
  | none =>
    simp only [sarsaUpdate]
    exact WF_qaccess _ _ hWF _
  | some n =>
    simp only [sarsaUpdate]
    exact WF_qaccess _ _ (WF_qaccess _ _ hWF _) _

theorem sarsamaxUpdate_snd_WF (g : Globals) (alpha gamma : ℚ) (Q : QTable)
    (nA : Nat) (s a : Nat) (ns : Option Nat) (hWF : WF Q nA) :
    WF (sarsamaxUpdate g alpha gamma Q nA s a ns).2 nA := by
  simp only [sarsamaxUpdate]
  exact WF_qaccess _ _ (WF_qaccess _ _ hWF _) _

theorem expectedSarsaUpdate_snd_WF (g : Globals) (eps : ℚ) (nA : Nat)
    (alpha gamma : ℚ) (Q : QTable) (s a : Nat) (ns : Option Nat) (hWF : WF Q nA) :
    WF (expectedSarsaUpdate g eps nA alpha gamma Q s a ns).2 nA := by
  cases ns with
  | none =>
    simp only [expectedSarsaUpdate]
    exact WF_qaccess _ _ hWF _
  | some n =>
    simp only [expectedSarsaUpdate]
    exact WF_qaccess _ _ (WF_qaccess _ _ hWF _) _

theorem qval_eq_of_qvec (Q1 Q2 : QTable) (nA : Nat) (k : Option Nat) (b : Nat)
    (h : qvec Q1 nA k = qvec Q2 nA k) : qval Q1 nA k b = qval Q2 nA k b := by
  unfold qval
  rw [h]

/-! ## The claims -/

/-- C1: For every variant (SARSA, SARSAMAX, Expected SARSA), the
assignment `Q[state][action] = update_sarsa_Q(...)` writes the new
action value `Q[s][a] + alpha * (reward + gamma * target - Q[s][a])`,
where `target` is the variant-specific bootstrap value computed for
`next_state`, and it writes that value only to the single entry
`Q[state][action]`: every other state-action value of the table is
unchanged (the defaultdict may materialize zero vectors for keys it
touches, which leaves every value unchanged). -/
theorem c1_update_writes_td_formula (g : Globals) (alpha gamma eps : ℚ)
    (Q : QTable) (nA : Nat) (s a : Nat) (ns na : Option Nat)
    (hWF : WF Q nA) (ha : a < nA) :
    ((sarsaUpdate g alpha gamma Q nA s a ns na).1 =
        qval Q nA (some s) a +
          alpha * (g.reward + gamma * sarsaTarget Q nA ns na - qval Q nA (some s) a) ∧
      qval (sarsaStep g alpha gamma Q nA s a ns na) nA (some s) a =
        (sarsaUpdate g alpha gamma Q nA s a ns na).1 ∧
      ∀ k b, ¬(k = some s ∧ b = a) →
        qval (sarsaStep g alpha gamma Q nA s a ns na) nA k b = qval Q nA k b) ∧
    ((sarsamaxUpdate g alpha gamma Q nA s a ns).1 =
        qval Q nA (some s) a +
          alpha * (g.reward + gamma * sarsamaxTarget Q nA ns - qval Q nA (some s) a) ∧
      qval (sarsamaxStep g alpha gamma Q nA s a ns) nA (some s) a =
        (sarsamaxUpdate g alpha gamma Q nA s a ns).1 ∧
      ∀ k b, ¬(k = some s ∧ b = a) →
        qval (sarsamaxStep g alpha gamma Q nA s a ns) nA k b = qval Q nA k b) ∧
    ((expectedSarsaUpdate g eps nA alpha gamma Q s a ns).1 =
        qval Q nA (some s) a +
          alpha * (g.reward + gamma * expectedTarget eps Q nA ns - qval Q nA (some s) a) ∧
      qval (expectedSarsaStep g eps nA alpha gamma Q s a ns) nA (some s) a =
        (expectedSarsaUpdate g eps nA alpha gamma Q s a ns).1 ∧
      ∀ k b, ¬(k = some s ∧ b = a) →
        qval (expectedSarsaStep g eps nA alpha gamma Q s a ns) nA k b = qval Q nA k b) := by
  refine ⟨⟨sarsaUpdate_fst g alpha gamma Q nA s a ns na, ?_, ?_⟩,
    ⟨sarsamaxUpdate_fst g alpha gamma Q nA s a ns, ?_, ?_⟩,
    ⟨expectedSarsaUpdate_fst g eps nA alpha gamma Q s a ns, ?_, ?_⟩⟩
  · exact qval_qset_self _ nA (sarsaUpdate_snd_WF g alpha gamma Q nA s a ns na hWF)
      _ a _ ha
  · intro k b hkb
    unfold sarsaStep
    rw [qval_qset_other _ nA _ k a b _ hkb]
    exact qval_eq_of_qvec _ _ nA k b (sarsaUpdate_snd_qvec g alpha gamma Q nA s a ns na k)
  · exact qval_qset_self _ nA (sarsamaxUpdate_snd_WF g alpha gamma Q nA s a ns hWF)
      _ a _ ha
  · intro k b hkb
    unfold sarsamaxStep
    rw [qval_qset_other _ nA _ k a b _ hkb]
    exact qval_eq_of_qvec _ _ nA k b (sarsamaxUpdate_snd_qvec g alpha gamma Q nA s a ns k)
  · exact qval_qset_self _ nA (expectedSarsaUpdate_snd_WF g eps nA alpha gamma Q s a ns hWF)
      _ a _ ha
  · intro k b hkb
    unfold expectedSarsaStep
    rw [qval_qset_other _ nA _ k a b _ hkb]
    exact qval_eq_of_qvec _ _ nA k b (expectedSarsaUpdate_snd_qvec g eps nA alpha gamma Q s a ns k)

/-- Witness for C1: the property evaluated at a concrete input (table
`{0 ↦ [3]}`, one action, a terminal transition, reward 2 in the global
frame). -/
theorem c1_witness :
    ((sarsaUpdate ⟨2, 0, 0, false, 0⟩ (1/2) 1 [(some 0, [3])] 1 0 0 none none).1 =
        qval [(some 0, [3])] 1 (some 0) 0 +
          (1/2) * ((2:ℚ) + 1 * sarsaTarget [(some 0, [3])] 1 none none -
            qval [(some 0, [3])] 1 (some 0) 0) ∧
      qval (sarsaStep ⟨2, 0, 0, false, 0⟩ (1/2) 1 [(some 0, [3])] 1 0 0 none none)
          1 (some 0) 0 =
        (sarsaUpdate ⟨2, 0, 0, false, 0⟩ (1/2) 1 [(some 0, [3])] 1 0 0 none none).1 ∧
      ∀ k b, ¬(k = some 0 ∧ b = 0) →
        qval (sarsaStep ⟨2, 0, 0, false, 0⟩ (1/2) 1 [(some 0, [3])] 1 0 0 none none)
            1 k b = qval [(some 0, [3])] 1 k b) ∧
    ((sarsamaxUpdate ⟨2, 0, 0, false, 0⟩ (1/2) 1 [(some 0, [3])] 1 0 0 none).1 =
        qval [(some 0, [3])] 1 (some 0) 0 +
          (1/2) * ((2:ℚ) + 1 * sarsamaxTarget [(some 0, [3])] 1 none -
            qval [(some 0, [3])] 1 (some 0) 0) ∧
      qval (sarsamaxStep ⟨2, 0, 0, false, 0⟩ (1/2) 1 [(some 0, [3])] 1 0 0 none)
          1 (some 0) 0 =
        (sarsamaxUpdate ⟨2, 0, 0, false, 0⟩ (1/2) 1 [(some 0, [3])] 1 0 0 none).1 ∧
      ∀ k b, ¬(k = some 0 ∧ b = 0) →
        qval (sarsamaxStep ⟨2, 0, 0, false, 0⟩ (1/2) 1 [(some 0, [3])] 1 0 0 none)
            1 k b = qval [(some 0, [3])] 1 k b) ∧
    ((expectedSarsaUpdate ⟨2, 0, 0, false, 0⟩ (1/4) 1 (1/2) 1 [(some 0, [3])] 0 0 none).1 =
        qval [(some 0, [3])] 1 (some 0) 0 +
          (1/2) * ((2:ℚ) + 1 * expectedTarget (1/4) [(some 0, [3])] 1 none -
            qval [(some 0, [3])] 1 (some 0) 0) ∧
      qval (expectedSarsaStep ⟨2, 0, 0, false, 0⟩ (1/4) 1 (1/2) 1 [(some 0, [3])] 0 0 none)
          1 (some 0) 0 =
        (expectedSarsaUpdate ⟨2, 0, 0, false, 0⟩ (1/4) 1 (1/2) 1 [(some 0, [3])] 0 0 none).1 ∧
      ∀ k b, ¬(k = some 0 ∧ b = 0) →
        qval (expectedSarsaStep ⟨2, 0, 0, false, 0⟩ (1/4) 1 (1/2) 1 [(some 0, [3])] 0 0 none)
            1 k b = qval [(some 0, [3])] 1 k b) :=
  c1_update_writes_td_formula ⟨2, 0, 0, false, 0⟩ (1/2) 1 (1/4)
    [(some 0, [3])] 1 0 0 none none (by decide) (by decide)

/-- C2 counterexample: the claim "the result of each update function is
determined by its declared parameters" is false on the code — two calls
of the SARSA `update_sarsa_Q` with identical declared arguments
(`alpha = 1`, `gamma = 0`, `Q = {}`, `state = 0`, `action = 0`,
`next_state = None`, `next_action = None`) return different values when
the enclosing scope's `reward` differs (0 versus 1). -/
theorem c2_counterexample :
    (sarsaUpdate ⟨0, 0, 0, false, 0⟩ 1 0 [] 1 0 0 none none).1 ≠
      (sarsaUpdate ⟨1, 0, 0, false, 0⟩ 1 0 [] 1 0 0 none none).1 := by
  simp [sarsaUpdate, qaccess, qlookup, zeros]

/-- C2 (amended): the result of each update function is determined by
its declared parameters together with the enclosing scope's `reward`:
two calls with equal declared argument tuples whose global frames agree
on `reward` return equal values (and equal post-call tables), whatever
the rest of the enclosing scope holds. -/
theorem c2_update_determined_by_params_and_reward (g1 g2 : Globals)
    (h : g1.reward = g2.reward) (alpha gamma eps : ℚ) (Q : QTable) (nA : Nat)
    (s a : Nat) (ns na : Option Nat) :
    sarsaUpdate g1 alpha gamma Q nA s a ns na =
        sarsaUpdate g2 alpha gamma Q nA s a ns na ∧
      sarsamaxUpdate g1 alpha gamma Q nA s a ns =
        sarsamaxUpdate g2 alpha gamma Q nA s a ns ∧
      expectedSarsaUpdate g1 eps nA alpha gamma Q s a ns =
        expectedSarsaUpdate g2 eps nA alpha gamma Q s a ns := by
  refine ⟨?_, ?_, ?_⟩
  · unfold sarsaUpdate
    rw [h]
  · unfold sarsamaxUpdate
    rw [h]
  · unfold expectedSarsaUpdate
    rw [h]

/-- Witness for C2 (amended): two distinct global frames agreeing on
`reward = 5` give identical update results. -/
theorem c2_witness :
    sarsaUpdate ⟨5, 0, 0, false, 0⟩ (1/2) 1 [(some 0, [3])] 1 0 0 none none =
        sarsaUpdate ⟨5, 7, 3, true, 1⟩ (1/2) 1 [(some 0, [3])] 1 0 0 none none ∧
      sarsamaxUpdate ⟨5, 0, 0, false, 0⟩ (1/2) 1 [(some 0, [3])] 1 0 0 none =
        sarsamaxUpdate ⟨5, 7, 3, true, 1⟩ (1/2) 1 [(some 0, [3])] 1 0 0 none ∧
      expectedSarsaUpdate ⟨5, 0, 0, false, 0⟩ (1/4) 1 (1/2) 1 [(some 0, [3])] 0 0 none =
        expectedSarsaUpdate ⟨5, 7, 3, true, 1⟩ (1/4) 1 (1/2) 1 [(some 0, [3])] 0 0 none :=
  c2_update_determined_by_params_and_reward ⟨5, 0, 0, false, 0⟩ ⟨5, 7, 3, true, 1⟩
    rfl (1/2) 1 (1/4) [(some 0, [3])] 1 0 0 none none

/-- C5: for all three variants, a terminal call (`next_state = None`)
returns exactly `Q[s][a] + alpha * (reward - Q[s][a])` — the bootstrap
term is 0 — the result is independent of `gamma` and of every entry of
the table other than `Q[s][a]`, and the terminal assignment sets
`Q[s][a]` to that value. -/
theorem c5_terminal_update_reward_only (g : Globals)
    (alpha gamma gamma1 gamma2 eps : ℚ) (Q Qa Qb : QTable) (nA : Nat)
    (s a : Nat) (hWF : WF Q nA) (ha : a < nA) :
    ((sarsaUpdate g alpha gamma Q nA s a none none).1 =
        qval Q nA (some s) a + alpha * (g.reward - qval Q nA (some s) a) ∧
      (sarsaUpdate g alpha gamma1 Q nA s a none none).1 =
        (sarsaUpdate g alpha gamma2 Q nA s a none none).1 ∧
      (qval Qa nA (some s) a = qval Qb nA (some s) a →
        (sarsaUpdate g alpha gamma Qa nA s a none none).1 =
          (sarsaUpdate g alpha gamma Qb nA s a none none).1) ∧
      qval (sarsaStep g alpha gamma Q nA s a none none) nA (some s) a =
        qval Q nA (some s) a + alpha * (g.reward - qval Q nA (some s) a)) ∧
    ((sarsamaxUpdate g alpha gamma Q nA s a none).1 =
        qval Q nA (some s) a + alpha * (g.reward - qval Q nA (some s) a) ∧
      (sarsamaxUpdate g alpha gamma1 Q nA s a none).1 =
        (sarsamaxUpdate g alpha gamma2 Q nA s a none).1 ∧
      (qval Qa nA (some s) a = qval Qb nA (some s) a →
        (sarsamaxUpdate g alpha gamma Qa nA s a none).1 =
          (sarsamaxUpdate g alpha gamma Qb nA s a none).1) ∧
      qval (sarsamaxStep g alpha gamma Q nA s a none) nA (some s) a =
        qval Q nA (some s) a + alpha * (g.reward - qval Q nA (some s) a)) ∧
    ((expectedSarsaUpdate g eps nA alpha gamma Q s a none).1 =
        qval Q nA (some s) a + alpha * (g.reward - qval Q nA (some s) a) ∧
      (expectedSarsaUpdate g eps nA alpha gamma1 Q s a none).1 =
        (expectedSarsaUpdate g eps nA alpha gamma2 Q s a none).1 ∧
      (qval Qa nA (some s) a = qval Qb nA (some s) a →
        (expectedSarsaUpdate g eps nA alpha gamma Qa s a none).1 =
          (expectedSarsaUpdate g eps nA alpha gamma Qb s a none).1) ∧
      qval (expectedSarsaStep g eps nA alpha gamma Q s a none) nA (some s) a =
        qval Q nA (some s) a + alpha * (g.reward - qval Q nA (some s) a)) := by
  have hs : ∀ gm : ℚ, ∀ Qx : QTable, (sarsaUpdate g alpha gm Qx nA s a none none).1 =
      qval Qx nA (some s) a + alpha * (g.reward - qval Qx nA (some s) a) := by
    intro gm Qx
    rw [sarsaUpdate_fst]
    simp [sarsaTarget]
  have hm : ∀ gm : ℚ, ∀ Qx : QTable, (sarsamaxUpdate g alpha gm Qx nA s a none).1 =
      qval Qx nA (some s) a + alpha * (g.reward - qval Qx nA (some s) a) := by
    intro gm Qx
    rw [sarsamaxUpdate_fst]
    simp [sarsamaxTarget]
  have he : ∀ gm : ℚ, ∀ Qx : QTable,
      (expectedSarsaUpdate g eps nA alpha gm Qx s a none).1 =
      qval Qx nA (some s) a + alpha * (g.reward - qval Qx nA (some s) a) := by
    intro gm Qx
    rw [expectedSarsaUpdate_fst]
    simp [expectedTarget]
  refine ⟨⟨hs gamma Q, ?_, ?_, ?_⟩, ⟨hm gamma Q, ?_, ?_, ?_⟩, ⟨he gamma Q, ?_, ?_, ?_⟩⟩
  · rw [hs gamma1 Q, hs gamma2 Q]
  · intro hq
    rw [hs gamma Qa, hs gamma Qb, hq]
  · unfold sarsaStep
    rw [qval_qset_self _ nA (sarsaUpdate_snd_WF g alpha gamma Q nA s a none none hWF)
      _ a _ ha]
    exact hs gamma Q
  · rw [hm gamma1 Q, hm gamma2 Q]
  · intro hq
    rw [hm gamma Qa, hm gamma Qb, hq]
  · unfold sarsamaxStep
    rw [qval_qset_self _ nA (sarsamaxUpdate_snd_WF g alpha gamma Q nA s a none hWF)
      _ a _ ha]
    exact hm gamma Q
  · rw [he gamma1 Q, he gamma2 Q]
  · intro hq
    rw [he gamma Qa, he gamma Qb, hq]
  · unfold expectedSarsaStep
    rw [qval_qset_self _ nA (expectedSarsaUpdate_snd_WF g eps nA alpha gamma Q s a none hWF)
      _ a _ ha]
    exact he gamma Q

/-- Witness for C5: a terminal SARSA update on the table `{0 ↦ [3]}` with
reward 2 in the global frame. -/
theorem c5_witness :
    (sarsaUpdate ⟨2, 0, 0, false, 0⟩ (1/2) 3 [(some 0, [3])] 1 0 0 none none).1 =
      qval [(some 0, [3])] 1 (some 0) 0 +
        (1/2) * ((2:ℚ) - qval [(some 0, [3])] 1 (some 0) 0) :=
  (c5_terminal_update_reward_only ⟨2, 0, 0, false, 0⟩ (1/2) 3 3 7 (1/4)
    [(some 0, [3])] [] [(some 5, [9])] 1 0 0 (by decide) (by decide)).1.1

/-- C4: in the Expected-SARSA update, for every table, state, epsilon in
[0,1] and `nA ≥ 1`, the constructed probability vector (`eps/nA`
everywhere, with the argmax entry overwritten by `1 - eps + eps/nA`)
sums to exactly 1 and assigns the greedy (argmax) action probability
`1 - eps + eps/nA`, and the bootstrap target is the dot product of this
vector with `Q[next_state]`. -/
theorem c4_expected_policy_sums_to_one (eps : ℚ) (Q : QTable) (nA : Nat)
    (n : Nat) (hWF : WF Q nA) (hnA : 1 ≤ nA) (h0 : 0 ≤ eps) (h1 : eps ≤ 1) :
    (expPolicy eps nA (qvec Q nA (some n))).sum = 1 ∧
      (expPolicy eps nA (qvec Q nA (some n))).getD (argmax (qvec Q nA (some n))) 0 =
        1 - eps + eps / (nA : ℚ) ∧
      expectedTarget eps Q nA (some n) =
        dot (qvec Q nA (some n)) (expPolicy eps nA (qvec Q nA (some n))) := by
  have hlen : (qvec Q nA (some n)).length = nA := WF_qvec_length Q nA hWF _
  have hne : qvec Q nA (some n) ≠ [] := by
    intro hc
    rw [hc] at hlen
    simp at hlen
    omega
  have harg : argmax (qvec Q nA (some n)) < nA := by
    have h := argmax_lt_length _ hne
    rwa [hlen] at h
  refine ⟨?_, ?_, rfl⟩
  · unfold expPolicy
    rw [sum_set_replicate nA _ _ _ harg]
    have hnz : (nA : ℚ) ≠ 0 := Nat.cast_ne_zero.mpr (by omega)
    field_simp
    ring
  · unfold expPolicy
    exact getD_set_self _ _ _ (by rw [List.length_replicate]; exact harg)

/-- Witness for C4: `eps = 1`, the empty table, two actions. -/
theorem c4_witness :
    (expPolicy 1 2 (qvec [] 2 (some 0))).sum = 1 :=
  (c4_expected_policy_sums_to_one 1 [] 2 0 (by decide) (by decide)
    zero_le_one le_rfl).1

/-- C3: for every well-formed table and non-terminal `next_state`, the
SARSAMAX bootstrap target equals `max_a Q[next_state][a]` over
`a ∈ [0, nA)` (it is an upper bound and is attained), and — the SARSAMAX
source taking no epsilon parameter — it is invariant under the spec's
common target signature in both the exploration rate and the chosen next
action; by contrast the Expected-SARSA target varies with epsilon, and
the SARSA bootstrap (next action sampled by `eps_greedy`, then
`Q[next_state][next_action]`) varies with epsilon at fixed randomness. -/
theorem c3_sarsamax_target_is_max (Q : QTable) (nA : Nat) (n : Nat)
    (hWF : WF Q nA) (hnA : 1 ≤ nA) :
    (∀ a, a < nA → qval Q nA (some n) a ≤ sarsamaxTarget Q nA (some n)) ∧
      (∃ a, a < nA ∧ sarsamaxTarget Q nA (some n) = qval Q nA (some n) a) ∧
      (∀ e1 e2 : ℚ, ∀ na1 na2 : Option Nat,
        targetSARSAMAX Q (some n) e1 nA na1 = targetSARSAMAX Q (some n) e2 nA na2) ∧
      (∃ Qx : QTable, ∃ nx : Nat, ∃ e1 e2 : ℚ,
        targetEXPECTED Qx (some nx) e1 2 none ≠ targetEXPECTED Qx (some nx) e2 2 none) ∧
      (∃ Qx : QTable, ∃ nx : Nat, ∃ e1 e2 rand : ℚ, ∃ ri : Nat,
        sarsaNextBootstrap e1 Qx nx 2 rand ri ≠ sarsaNextBootstrap e2 Qx nx 2 rand ri) := by
  have hlen : (qvec Q nA (some n)).length = nA := WF_qvec_length Q nA hWF _
  have hne : qvec Q nA (some n) ≠ [] := by
    intro hc
    rw [hc] at hlen
    simp at hlen
    omega
  have harg : argmax (qvec Q nA (some n)) < nA := by
    have h := argmax_lt_length _ hne
    rwa [hlen] at h
  refine ⟨?_, ⟨argmax (qvec Q nA (some n)), harg, rfl⟩, fun e1 e2 na1 na2 => rfl,
    ⟨[(some 0, [0, 1])], 0, 0, 1, ?_⟩,
    ⟨[(some 0, [0, 1])], 0, 1, 0, 1/2, 0, ?_⟩⟩
  · intro a ha
    have h := getD_le_argmax (qvec Q nA (some n)) a (by rw [hlen]; exact ha)
    simpa [sarsamaxTarget, qval] using h
  · norm_num [targetEXPECTED, expectedTarget, expPolicy, qvec, qlookup, dot,
      argmax, zeros]
  · norm_num [sarsaNextBootstrap, eps_greedy, sarsaTarget, qaccess, qval, qvec,
      qlookup, argmax, zeros]

/-- Witness for C3: the table `{0 ↦ [0, 1]}` with two actions. -/
theorem c3_witness :
    ∃ a, a < 2 ∧ sarsamaxTarget [(some 0, [0, 1])] 2 (some 0) =
      qval [(some 0, [0, 1])] 2 (some 0) a :=
  (c3_sarsamax_target_is_max [(some 0, [0, 1])] 2 0 (by decide) (by decide)).2.1

/-- C6 counterexample: the claim "the selector does not mutate the
table, for every state argument including states with no existing
entry" is false on the code — `eps_greedy(0, {}, 0, 1)` with random
draw `1` takes the greedy branch, whose read `Q[state]` on the
defaultdict inserts a zero vector: the table before is `{}` and after
is `{0 ↦ [0]}`. -/
theorem c6_counterexample :
    (eps_greedy 0 [] 0 1 1 0).2 ≠ ([] : QTable) := by
  have h : ¬((1 : ℚ) < 0) := not_lt.mpr zero_le_one
  simp [eps_greedy, qaccess, qlookup, zeros, h]

/-- C6 (amended): `eps_greedy` never changes any stored entry and never
changes any state-action value of the table (its value-view is
unchanged); its only possible table effect is the defaultdict lazily
materializing the zero vector for the queried state when that state has
no entry and the greedy branch is taken — every key other than the
queried state is untouched.  Beyond that its only effect is consuming
randomness. -/
theorem c6_selector_preserves_table (eps : ℚ) (Q : QTable) (s : Nat)
    (nA : Nat) (rand : ℚ) (ri : Nat) :
    (∀ k v, qlookup Q k = some v →
        qlookup (eps_greedy eps Q s nA rand ri).2 k = some v) ∧
      (∀ k, k ≠ some s →
        qlookup (eps_greedy eps Q s nA rand ri).2 k = qlookup Q k) ∧
      (∀ k, qvec (eps_greedy eps Q s nA rand ri).2 nA k = qvec Q nA k) := by
  unfold eps_greedy
  by_cases hr : rand < eps
  · simp [hr]
  · refine ⟨?_, ?_, ?_⟩
    · intro k v hk
      simpa [hr] using qlookup_qaccess_mono Q nA (some s) k v hk
    · intro k hk
      simpa [hr] using qlookup_qaccess_ne Q nA (some s) k (fun h => hk h.symm)
    · intro k
      simpa [hr] using qvec_qaccess Q nA (some s) k

/-- Witness for C6 (amended): an existing entry `{1 ↦ [5]}` survives the
call, a key other than the queried state is untouched, and the
value-view at the key `None` is unchanged. -/
theorem c6_witness :
    qlookup (eps_greedy 0 [(some 1, [5])] 0 1 (1/2) 0).2 (some 1) = some [5] ∧
      qlookup (eps_greedy 0 [(some 1, [5])] 0 1 (1/2) 0).2 (some 1) =
        qlookup [(some 1, [5])] (some 1) ∧
      qvec (eps_greedy 0 [(some 1, [5])] 0 1 (1/2) 0).2 1 none =
        qvec [(some 1, [5])] 1 none :=
  ⟨(c6_selector_preserves_table 0 [(some 1, [5])] 0 1 (1/2) 0).1 (some 1) [5]
      rfl,
    (c6_selector_preserves_table 0 [(some 1, [5])] 0 1 (1/2) 0).2.1 (some 1)
      (by decide),
    (c6_selector_preserves_table 0 [(some 1, [5])] 0 1 (1/2) 0).2.2 none⟩

theorem trainStep_iterate_eps (runEp : QTable → ℚ → ℚ → ℚ → QTable × ℚ)
    (d m alpha gamma : ℚ) (st : TrainState) :
    ∀ i, ((trainStep runEp d m alpha gamma)^[i] st).eps =
      (decayStep d m)^[i] st.eps := by
  intro i
  induction i with
  | zero => rfl
  | succ j ih =>
    rw [Function.iterate_succ_apply', Function.iterate_succ_apply']
    rw [← ih]
    rfl

/-- C7: in the training loop, epsilon is updated to
`max(eps * eps_decay, eps_min)` before each episode runs: every loop
iteration first decays the loop's epsilon and hands the decayed value to
the episode runner, so episode 1 already runs with
`max(initial_eps * eps_decay, eps_min)` rather than the raw initial
value, and episode `i + 1` runs with the initial value decayed `i + 1`
times. -/
theorem c7_eps_decayed_before_episode (runEp : QTable → ℚ → ℚ → ℚ → QTable × ℚ)
    (d m alpha gamma e0 : ℚ) (Q0 : QTable) (st : TrainState) (i : Nat) :
    ((trainStep runEp d m alpha gamma st).eps = decayStep d m st.eps ∧
      (trainStep runEp d m alpha gamma st).Q =
        (runEp st.Q (decayStep d m st.eps) alpha gamma).1 ∧
      (trainStep runEp d m alpha gamma st).allRewards =
        st.allRewards ++ [(runEp st.Q (decayStep d m st.eps) alpha gamma).2]) ∧
    (trainStep runEp d m alpha gamma ⟨e0, Q0, []⟩).Q =
      (runEp Q0 (max (e0 * d) m) alpha gamma).1 ∧
    ((trainStep runEp d m alpha gamma)^[i] ⟨e0, Q0, []⟩).eps =
      (decayStep d m)^[i] e0 ∧
    ((trainStep runEp d m alpha gamma)^[i + 1] ⟨e0, Q0, []⟩).Q =
      (runEp ((trainStep runEp d m alpha gamma)^[i] ⟨e0, Q0, []⟩).Q
        ((decayStep d m)^[i + 1] e0) alpha gamma).1 := by
  refine ⟨⟨rfl, rfl, rfl⟩, rfl, trainStep_iterate_eps runEp d m alpha gamma _ i, ?_⟩
  rw [Function.iterate_succ_apply', Function.iterate_succ_apply']
  rw [← trainStep_iterate_eps runEp d m alpha gamma ⟨e0, Q0, []⟩ i]
  rfl

theorem decayStep_iterate (d m e : ℚ) (hd0 : 0 ≤ d) (hd1 : d ≤ 1) (hm : 0 ≤ m) :
    ∀ n, (decayStep d m)^[n + 1] e = max (e * d ^ (n + 1)) m := by
  intro n
  induction n with
  | zero =>
    simp [decayStep]
  | succ j ih =>
    rw [Function.iterate_succ_apply', ih]
    unfold decayStep
    rw [max_mul_of_nonneg _ _ hd0, max_assoc]
    have hmd : m * d ≤ m := mul_le_of_le_one_right hm hd1
    rw [max_eq_right hmd, mul_assoc, ← pow_succ]

/-- C8: for every decay factor in (0,1), every `eps_min > 0` and every
starting epsilon, `eps_min` is a fixed point of
`e := max(e * decay, eps_min)` (once the value equals `eps_min` every
further application returns `eps_min`), and the iteration reaches
exactly `eps_min` after finitely many applications and stays there. -/
theorem c8_decay_reaches_eps_min (d m e0 : ℚ) (hd0 : 0 < d) (hd1 : d < 1)
    (hm : 0 < m) :
    decayStep d m m = m ∧ ∃ N, ∀ k, N ≤ k → (decayStep d m)^[k] e0 = m := by
  have hfix : decayStep d m m = m := by
    unfold decayStep
    exact max_eq_right (mul_le_of_le_one_right hm.le hd1.le)
  refine ⟨hfix, ?_⟩
  rcases le_or_lt e0 0 with he0 | he0
  · refine ⟨1, ?_⟩
    intro k hk
    obtain ⟨j, rfl⟩ : ∃ j, k = j + 1 := ⟨k - 1, by omega⟩
    rw [decayStep_iterate d m e0 hd0.le hd1.le hm.le j]
    exact max_eq_right
      (le_trans (mul_nonpos_of_nonpos_of_nonneg he0 (pow_nonneg hd0.le _)) hm.le)
  · obtain ⟨n, hn⟩ := exists_pow_lt_of_lt_one (div_pos hm he0) hd1
    refine ⟨n + 1, ?_⟩
    intro k hk
    obtain ⟨j, rfl⟩ : ∃ j, k = j + 1 := ⟨k - 1, by omega⟩
    rw [decayStep_iterate d m e0 hd0.le hd1.le hm.le j]
    have hpow : d ^ (j + 1) ≤ d ^ n :=
      pow_le_pow_of_le_one hd0.le hd1.le (by omega)
    have h1 : e0 * d ^ (j + 1) ≤ e0 * d ^ n :=
      mul_le_mul_of_nonneg_left hpow he0.le
    have h2 : e0 * d ^ n < m := by
      have h3 := (lt_div_iff he0).mp hn
      linarith
    exact max_eq_right (le_trans h1 h2.le)

/-- Witness for C8: decay 1/2 with floor 1/4, starting at 1. -/
theorem c8_witness :
    decayStep (1/2) (1/4) (1/4) = 1/4 ∧
      ∃ N, ∀ k, N ≤ k → (decayStep (1/2) (1/4))^[k] 1 = 1/4 :=
  c8_decay_reaches_eps_min (1/2) (1/4) 1 one_half_pos one_half_lt_one
    (by simp)

theorem sarsamaxStep_lookup_none (g : Globals) (alpha gamma : ℚ) (Q : QTable)
    (nA s a : Nat) :
    qlookup (sarsamaxStep g alpha gamma Q nA s a none) none =
      some (qvec Q nA none) := by
  simp only [sarsamaxStep]
  rw [qlookup_qset_ne _ _ _ _ _ _ (by simp : (none : Option Nat) ≠ some s)]
  simp only [sarsamaxUpdate]
  rw [qlookup_qaccess_ne _ _ _ _ (by simp : (some s : Option Nat) ≠ none),
    qlookup_qaccess_self]

/-- C10: in the SARSAMAX variant, a terminal update call
(`next_state = None`) evaluates `np.argmax(Q[next_state])` before the
`None` guard, which inserts a zero vector under the key `None` into the
defaultdict; hence every completed episode returns a table containing an
entry at the key `None`, which is not an environment state. -/
theorem c10_terminal_update_inserts_none_key :
    (∀ (g : Globals) (alpha gamma : ℚ) (Q : QTable) (nA s a : Nat),
      qlookup Q none = Option.none →
        qlookup (sarsamaxUpdate g alpha gamma Q nA s a none).2 none =
          some (zeros nA)) ∧
      (∀ (step : Nat → Nat → Nat × ℚ × Bool) (rnd : Nat → ℚ × Nat)
        (g : Globals) (nA : Nat) (eps alpha gamma : ℚ) (fuel : Nat)
        (Q : QTable) (s0 : Nat) (sc : ℚ) (k : Nat) (Qf : QTable) (total : ℚ),
        sarsamaxEpisode step rnd g nA eps alpha gamma fuel Q s0 sc k =
            some (Qf, total) →
          qlookup Qf none ≠ Option.none) := by
  constructor
  · intro g alpha gamma Q nA s a h
    simp only [sarsamaxUpdate]
    rw [qlookup_qaccess_ne _ _ _ _ (by simp : (some s : Option Nat) ≠ none),
      qlookup_qaccess_self]
    unfold qvec
    rw [h]
    rfl
  · intro step rnd g nA eps alpha gamma fuel
    induction fuel with
    | zero =>
      intro Q s0 sc k Qf total h
      simp [sarsamaxEpisode] at h
    | succ j ih =>
      intro Q s0 sc k Qf total h
      simp only [sarsamaxEpisode] at h
      split at h
      · simp only [Option.some.injEq, Prod.mk.injEq] at h
        obtain ⟨h1, _⟩ := h
        rw [← h1, sarsamaxStep_lookup_none]
        simp
      · exact ih _ _ _ _ _ _ h

/-- Witness for C10: the one-step environment that terminates
immediately with reward −1; the finished episode's table holds the key
`None`. -/
theorem c10_witness :
    qlookup (sarsamaxUpdate ⟨-1, 0, 0, false, 0⟩ 1 1 [] 1 0 0 none).2 none =
        some (zeros 1) ∧
      qlookup ([(some 0, [-1]), (none, [0])] : QTable) none ≠ Option.none :=
  ⟨c10_terminal_update_inserts_none_key.1 ⟨-1, 0, 0, false, 0⟩ 1 1 [] 1 0 0
      rfl,
    c10_terminal_update_inserts_none_key.2 (fun _ _ => (0, -1, true))
      (fun _ => (1, 0)) ⟨-1, 0, 0, false, 0⟩ 1 0 1 1 1 [] 0 0 0
      [(some 0, [-1]), (none, [0])] (-1) (by
        have hlt : ¬((1 : ℚ) < 0) := not_lt.mpr zero_le_one
        simp [sarsamaxEpisode, eps_greedy, hlt, qaccess, qlookup, zeros,
          sarsamaxStep, sarsamaxUpdate, qset, qsetKey, argmax])⟩
